import Mathlib

/-
Formal model of the jarvis reminder engine (tasks_manager.py, scheduler.py,
sms_handler.py), as a shallow embedding.  The SQLite tasks table is a list of
rows in rowid order; SQL statements become list operations; Python functions
that catch sqlite3.Error take the database as an Except value.  External
libraries (dateparser, datetime.fromisoformat, Twilio) are parameters of the
definitions that call them.
-/

/-- TaskRow (the source calls this entity Task, a name the Lean core library
already takes): one row of the tasks table created by
tasks_manager.py init_database (id, text, due_date, due_ts, completed,
priority, created_at, completed_at).  completed is INTEGER 0/1, modelled as
Bool; due_ts is epoch seconds (INTEGER, possibly NULL); created_at is the
CURRENT_TIMESTAMP text. -/
structure TaskRow where
  id : Nat
  text : String
  due_date : Option String
  due_ts : Option Int
  completed : Bool
  priority : String
  created_at : String
  completed_at : Option String
deriving DecidableEq

/-- Row update performed by the UPDATE statement of complete_task:
SET completed = 1, completed_at = CURRENT_TIMESTAMP. -/
def markDone (now : String) (t : TaskRow) : TaskRow :=
  { t with completed := true, completed_at := some now }

/-- The UPDATE of TasksManager.complete_task (tasks_manager.py lines 260-274):
UPDATE tasks SET completed = 1, completed_at = CURRENT_TIMESTAMP
WHERE id = ? AND completed = 0, returning (rowcount > 0, updated table). -/
def complete_task_update (s : List TaskRow) (i : Nat) (now : String) : Bool × List TaskRow :=
  (s.any (fun t => t.id == i && !t.completed),
   s.map (fun t => if t.id = i ∧ t.completed = false then markDone now t else t))

/-- TasksManager.complete_task with its try/except sqlite3.Error wrapper
(lines 243-278): a storage error is caught, logged and returned as False,
exactly like the no-op result. -/
def complete_task (db : Except Unit (List TaskRow)) (i : Nat) (now : String) : Bool :=
  match db with
  | .error _ => false
  | .ok s => (complete_task_update s i now).1

/-- TasksManager.get_task (lines 101-134): SELECT ... WHERE id = ?, first row
or None; the except sqlite3.Error branch also returns None. -/
def get_task (db : Except Unit (List TaskRow)) (i : Nat) : Option TaskRow :=
  match db with
  | .error _ => none
  | .ok s => s.find? (fun t => t.id == i)

/-- Filter of TasksManager.get_overdue_tasks (lines 358-365):
WHERE completed = 0 AND due_ts IS NOT NULL AND due_ts < now_ts. -/
def overdueP (now : Int) (t : TaskRow) : Bool :=
  !t.completed && (match t.due_ts with
    | some v => decide (v < now)
    | none => false)

/-- SQLite comparison used by ORDER BY due_ts ASC: NULL sorts before any
integer (SQLite NULL-first for ASC). -/
def due_ts_le (a b : TaskRow) : Prop :=
  match a.due_ts, b.due_ts with
  | none, _ => True
  | some _, none => False
  | some x, some y => x ≤ y

instance (a b : TaskRow) : Decidable (due_ts_le a b) :=
  match ha : a.due_ts, hb : b.due_ts with
  | none, _ => isTrue (by simp [due_ts_le, ha])
  | some _, none => isFalse (by simp [due_ts_le, ha, hb])
  | some x, some y => by
      simp only [due_ts_le, ha, hb]
      infer_instance

instance : IsTotal TaskRow due_ts_le where
  total a b := by
    unfold due_ts_le
    rcases a.due_ts with _ | x <;> rcases b.due_ts with _ | y <;> simp
    exact le_total x y

instance : IsTrans TaskRow due_ts_le where
  trans a b c := by
    unfold due_ts_le
    rcases a.due_ts with _ | x <;> rcases b.due_ts with _ | y <;>
      rcases c.due_ts with _ | z <;> simp
    exact le_trans

/-- TasksManager.get_overdue_tasks (lines 346-381): SELECT the pending rows
with a non-NULL due_ts strictly below now_ts, ORDER BY due_ts ASC. -/
def get_overdue_tasks (s : List TaskRow) (now : Int) : List TaskRow :=
  List.insertionSort due_ts_le (s.filter (overdueP now))

/-- CASE priority WHEN high THEN 1 WHEN medium THEN 2 WHEN low THEN 3 END
from get_pending_tasks; any other value yields NULL, which SQLite sorts
before every integer, encoded here as 0. -/
def prioKey (p : String) : Nat :=
  if p = "high" then 1 else if p = "medium" then 2 else if p = "low" then 3 else 0

/-- SQLite strict comparison of two TEXT-or-NULL values under ASC order:
NULL sorts before any string, strings compare bytewise. -/
def opt_str_lt : Option String → Option String → Prop
  | none, some _ => True
  | none, none => False
  | some _, none => False
  | some x, some y => x < y

instance (a b : Option String) : Decidable (opt_str_lt a b) :=
  match a, b with
  | none, some _ => isTrue trivial
  | none, none => isFalse (fun h => h)
  | some _, none => isFalse (fun h => h)
  | some x, some y => inferInstanceAs (Decidable (x < y))

/-- Row order produced by the ORDER BY of get_pending_tasks (lines 160-172):
priority key, then due_date ASC (NULL first, TEXT comparison), then
created_at ASC. -/
def pending_le (a b : TaskRow) : Prop :=
  prioKey a.priority < prioKey b.priority ∨
    (prioKey a.priority = prioKey b.priority ∧
      (opt_str_lt a.due_date b.due_date ∨
        (a.due_date = b.due_date ∧ a.created_at ≤ b.created_at)))

instance (a b : TaskRow) : Decidable (pending_le a b) := by
  unfold pending_le
  infer_instance

/-- TasksManager.get_pending_tasks (lines 136-190): all rows with
completed = 0 in the ORDER BY order above. -/
def get_pending_tasks (s : List TaskRow) : List TaskRow :=
  List.insertionSort pending_le (s.filter (fun t => !t.completed))

/-- AUTOINCREMENT id assignment: strictly above every id present. -/
def nextId (s : List TaskRow) : Nat := (s.map TaskRow.id).foldr max 0 + 1

/-- TasksManager.add_task (lines 47-99): computes due_ts by parsing the
due_date string with datetime.fromisoformat (modelled by the isoParse
parameter; the except branch that sets due_ts to None on a parse failure is
the None value of isoParse), then INSERTs the row.  Returns the new table
and the assigned id. -/
def add_task (isoParse : String → Option Int) (s : List TaskRow) (text : String)
    (due_date : Option String) (priority : String) (created : String) :
    List TaskRow × Nat :=
  ⟨s ++ [{ id := nextId s, text := text, due_date := due_date,
           due_ts := due_date.bind isoParse, completed := false,
           priority := priority, created_at := created, completed_at := none }],
   nextId s⟩

instance : IsTotal TaskRow pending_le where
  total a b := by
    unfold pending_le
    rcases Nat.lt_trichotomy (prioKey a.priority) (prioKey b.priority) with h | h | h
    · exact Or.inl (Or.inl h)
    · rcases ha : a.due_date with _ | x <;> rcases hb : b.due_date with _ | y
      · rcases le_total a.created_at b.created_at with hc | hc
        · exact Or.inl (Or.inr ⟨h, Or.inr ⟨rfl, hc⟩⟩)
        · exact Or.inr (Or.inr ⟨h.symm, Or.inr ⟨rfl, hc⟩⟩)
      · exact Or.inl (Or.inr ⟨h, Or.inl (by simp [opt_str_lt])⟩)
      · exact Or.inr (Or.inr ⟨h.symm, Or.inl (by simp [opt_str_lt])⟩)
      · rcases lt_trichotomy x y with hxy | hxy | hxy
        · exact Or.inl (Or.inr ⟨h, Or.inl (by simp [opt_str_lt, hxy])⟩)
        · subst hxy
          rcases le_total a.created_at b.created_at with hc | hc
          · exact Or.inl (Or.inr ⟨h, Or.inr ⟨rfl, hc⟩⟩)
          · exact Or.inr (Or.inr ⟨h.symm, Or.inr ⟨rfl, hc⟩⟩)
        · exact Or.inr (Or.inr ⟨h.symm, Or.inl (by simp [opt_str_lt, hxy])⟩)
    · exact Or.inr (Or.inl h)

instance : IsTrans TaskRow pending_le where
  trans a b c h1 h2 := by
    rcases h1 with h1 | ⟨e1, h1⟩
    · rcases h2 with h2 | ⟨e2, _⟩
      · exact Or.inl (lt_trans h1 h2)
      · exact Or.inl (lt_of_lt_of_le h1 (le_of_eq e2))
    · rcases h2 with h2 | ⟨e2, h2⟩
      · exact Or.inl (lt_of_le_of_lt (le_of_eq e1) h2)
      · refine Or.inr ⟨e1.trans e2, ?_⟩
        rcases h1 with h1 | ⟨d1, h1⟩
        · rcases h2 with h2 | ⟨d2, _⟩
          · left
            revert h1 h2
            unfold opt_str_lt
            rcases a.due_date with _ | xa <;> rcases b.due_date with _ | xb <;>
              rcases c.due_date with _ | xc <;> simp
            exact lt_trans
          · exact Or.inl (by rw [← d2]; exact h1)
        · rcases h2 with h2 | ⟨d2, h2⟩
          · exact Or.inl (by rw [d1]; exact h2)
          · exact Or.inr ⟨d1.trans d2, le_trans h1 h2⟩

/-- Result of MessageSender.send_reminder as seen by the scan loop: True,
False, or a raised exception (caught by the per-task except block). -/
inductive Outcome
  | success
  | failed
  | raised
deriving DecidableEq

/-- Result of one scan pass: ids handed to send_reminder in order (the
attempted deliveries), the sent_count, and the final table. -/
structure ScanResult where
  sends : List Nat
  sent : Nat
  store : List TaskRow
deriving DecidableEq

/-- Per-task loop shared by scheduler.py _check_and_send_reminders
(lines 54-85) and run_reminder_scan_now (lines 109-139): for each fetched
task, skip it if its id is in seen, else add the id to seen, call
send_reminder, and on True increment sent_count and run complete_task; on
False or on a raised exception leave the table alone and continue with the
next task.  completed_at is modelled with one CURRENT_TIMESTAMP text cnow
for the whole pass. -/
def scanGo (send : Nat → Outcome) (cnow : String) :
    List TaskRow → List TaskRow → List Nat → List Nat → Nat → ScanResult
  | [], s, _, sends, sent => ⟨sends, sent, s⟩
  | t :: rest, s, seen, sends, sent =>
    if t.id ∈ seen then
      scanGo send cnow rest s seen sends sent
    else
      match send t.id with
      | .success =>
          scanGo send cnow rest (complete_task_update s t.id cnow).2
            (t.id :: seen) (sends ++ [t.id]) (sent + 1)
      | .failed => scanGo send cnow rest s (t.id :: seen) (sends ++ [t.id]) sent
      | .raised => scanGo send cnow rest s (t.id :: seen) (sends ++ [t.id]) sent

/-- scheduler.run_reminder_scan_now (lines 88-139): returns 0 when the
MessageSender is not configured, else fetches the overdue tasks and runs the
per-task loop, returning sent_count and the resulting table.
_check_and_send_reminders runs the identical algorithm without the return
value. -/
def run_reminder_scan_now (configured : Bool) (send : Nat → Outcome)
    (s : List TaskRow) (nowTs : Int) (cnow : String) : Nat × List TaskRow :=
  if configured then
    let r := scanGo send cnow (get_overdue_tasks s nowTs) s [] [] 0
    (r.sent, r.store)
  else (0, s)

/-- Ids of the fetched tasks in processing order after the seen-set
deduplication of the scan loop. -/
def dedupIds : List TaskRow → List Nat → List Nat
  | [], _ => []
  | t :: rest, seen =>
    if t.id ∈ seen then dedupIds rest seen
    else t.id :: dedupIds rest (t.id :: seen)

/-- Deduplicated ids whose delivery reports success. -/
def succIds (send : Nat → Outcome) (due : List TaskRow) (seen : List Nat) : List Nat :=
  (dedupIds due seen).filter (fun i => decide (send i = Outcome.success))

/-- Left fold of the conditional completion update over a list of ids. -/
def applyCompl (cnow : String) : List TaskRow → List Nat → List TaskRow
  | s, [] => s
  | s, i :: l => applyCompl cnow (complete_task_update s i cnow).2 l

/-- Rows of a table that carry a given id. -/
def rowsWith (s : List TaskRow) (i : Nat) : List TaskRow :=
  s.filter (fun t => t.id == i)

/-- Timezone-aware datetime: an absolute instant in microseconds since the
epoch together with the utcoffset (seconds) of the attached tzinfo.  The
wall-clock reading is instant_us + offset_s * 1000000. -/
structure AwareDT where
  instant_us : Int
  offset_s : Int
deriving DecidableEq

/-- Value returned by dateparser.parse when it finds a date: either naive
(tzinfo is None, only a wall-clock reading) or timezone-aware. -/
inductive ParsedDT
  | naive (wall_us : Int)
  | aware (d : AwareDT)
deriving DecidableEq

/-- pytz localize of a naive result in the configured timezone (offset tz
seconds), sms_handler.py line 131; an aware result is left alone. -/
def localizeNaive (tz : Int) : ParsedDT → AwareDT
  | .naive w => { instant_us := w - tz * 1000000, offset_s := tz }
  | .aware d => d

/-- astimezone(pytz.UTC), line 132: same instant, offset zero. -/
def toUTC (d : AwareDT) : AwareDT := { instant_us := d.instant_us, offset_s := 0 }

/-- replace(microsecond=0), line 133: zero the microsecond field of the
wall-clock reading, keeping the offset. -/
def truncMicro (d : AwareDT) : AwareDT :=
  { d with instant_us := d.instant_us - (d.instant_us + d.offset_s * 1000000).emod 1000000 }

/-- Lines 130-133 of sms_handler.py applied to a successful parse: localize
a naive value in the user timezone, convert to UTC, truncate to whole
seconds. -/
def finalizeParsed (tz : Int) (p : ParsedDT) : AwareDT :=
  truncMicro (toUTC (localizeNaive tz p))

/-- Match a literal character list at the head, returning the remainder. -/
def matchLit : List Char → List Char → Option (List Char)
  | [], s => some s
  | _ :: _, [] => none
  | l :: ls, c :: cs => if l = c then matchLit ls cs else none

/-- Maximal run of ASCII digits at the head (greedy match of a digit
group). -/
def takeDigits : List Char → List Char × List Char
  | [] => ([], [])
  | c :: cs =>
    if c.isDigit then
      let r := takeDigits cs
      (c :: r.1, r.2)
    else ([], c :: cs)

/-- Regex match at the start of s for a numeric relative-time pattern of
shape pre, digit group, mid, optional letter s, post (covering both the
in-N-unit and N-unit-from-now patterns of _parse_date_nlp).  Returns the
matched text (group 0): the optional letter s is greedy, backing off when
post fails after it. -/
def matchNum (pre mid post s : List Char) : Option (List Char) :=
  match matchLit pre s with
  | none => none
  | some r1 =>
    let d := takeDigits r1
    if d.1 = [] then none
    else
      match matchLit mid d.2 with
      | none => none
      | some r3 =>
        match r3 with
        | 's' :: r4 =>
          match matchLit post r4 with
          | some _ => some (pre ++ d.1 ++ mid ++ 's' :: post)
          | none =>
            match matchLit post r3 with
            | some _ => some (pre ++ d.1 ++ mid ++ post)
            | none => none
        | _ =>
          match matchLit post r3 with
          | some _ => some (pre ++ d.1 ++ mid ++ post)
          | none => none

/-- re.search for a numeric pattern: try the match at each start position
from the left, returning the leftmost group 0. -/
def searchNum (pre mid post : List Char) : List Char → Option (List Char)
  | [] => matchNum pre mid post []
  | c :: rest =>
    match matchNum pre mid post (c :: rest) with
    | some g => some g
    | none => searchNum pre mid post rest

/-- re.search for a plain literal pattern: does the literal occur anywhere. -/
def containsLit (lit : List Char) : List Char → Bool
  | [] => (matchLit lit []).isSome
  | c :: rest => (matchLit lit (c :: rest)).isSome || containsLit lit rest

/-- One entry of the time_patterns list of _parse_date_nlp: a numeric
in-N-unit regex, a numeric N-unit-from-now regex, or a named-anchor
literal. -/
inductive TimePattern
  | inUnit (unit : String)
  | fromNow (unit : String)
  | anchor (phrase : String)
deriving DecidableEq

/-- The time_patterns list of sms_handler.py lines 94-107, in source
order. -/
def time_patterns : List TimePattern :=
  [.inUnit "minute", .inUnit "hour", .inUnit "day", .inUnit "second",
   .fromNow "minute", .fromNow "hour", .fromNow "day", .fromNow "second",
   .anchor "tomorrow", .anchor "today", .anchor "next week", .anchor "next month"]

/-- Searching one pattern in the lowercased text (lines 109-124): on a match
the phrase handed to dateparser.parse is group 0 for a numeric pattern and
the canonical anchor text for a named pattern (the dispatch on tomorrow,
today, next week, next month); None when the pattern does not occur. -/
def patternPhrase : TimePattern → List Char → Option String
  | .inUnit u, s =>
      (searchNum ("in ".toList) ((" " ++ u).toList) [] s).map (fun g => String.mk g)
  | .fromNow u, s =>
      (searchNum [] ((" " ++ u).toList) (" from now".toList) s).map (fun g => String.mk g)
  | .anchor ph, s => if containsLit ph.toList s then some ph else none

/-- Python str.lower restricted to ASCII (every pattern is ASCII). -/
def lowerChars (s : List Char) : List Char := s.map Char.toLower

/-- Fallback tier of _parse_date_nlp (lines 93-124): walk time_patterns in
order; at the first pattern that occurs in the lowered text, call
dateparser.parse on its phrase (which may itself raise or find nothing) and
break; if no pattern occurs, leave parsed as None. -/
def fallbackSearch (lib : String → Except Unit (Option ParsedDT)) (low : List Char) :
    List TimePattern → Except Unit (Option ParsedDT)
  | [] => .ok none
  | p :: rest =>
    match patternPhrase p low with
    | some phrase => lib phrase
    | none => fallbackSearch lib low rest

/-- SMSHandler._parse_date_nlp (sms_handler.py lines 78-138).  The
dateparser library is the lib parameter (settings folded in); it can return
a date, return None, or raise.  The surrounding try/except turns any raise
into the None result.  tz is the utcoffset of the configured user timezone
in seconds. -/
def parse_date_nlp (lib : String → Except Unit (Option ParsedDT)) (tz : Int)
    (text : String) : Option AwareDT :=
  match lib text with
  | .error _ => none
  | .ok (some d) => some (finalizeParsed tz d)
  | .ok none =>
    match fallbackSearch lib (lowerChars text.toList) time_patterns with
    | .error _ => none
    | .ok none => none
    | .ok (some p) => some (finalizeParsed tz p)

/-- Lift an exception-free dateparser model into the Except interface. -/
def libOfPure (plib : String → Option ParsedDT) : String → Except Unit (Option ParsedDT) :=
  fun s => .ok (plib s)

/-- SMSHandler._handle_task_creation (lines 140-165): parse the user
message for a date (fmt is datetime.isoformat rendering the UTC result) and
add the task with whatever came out, None included. -/
def handle_task_creation (lib : String → Except Unit (Option ParsedDT)) (tz : Int)
    (isoParse : String → Option Int) (fmt : AwareDT → String) (s : List TaskRow)
    (task_text user_message priority created : String) : List TaskRow × Nat :=
  add_task isoParse s task_text ((parse_date_nlp lib tz user_message).map fmt)
    priority created

/-- State of one entry point into the scan algorithm: idle (not called /
between ticks), mid-pass holding the overdue list it fetched plus its seen
set, or returned. -/
inductive ScanPhase
  | idle
  | running (remaining : List TaskRow) (seen : List Nat)
  | finished
deriving DecidableEq

/-- Joint state of the scheduled tick (scheduler.py _check_and_send_reminders
on the reminder-scheduler thread) and the manual trigger
(run_reminder_scan_now on a request thread) over one shared task store.
log records every id handed to send_reminder, in order. -/
structure RaceState where
  store : List TaskRow
  tick : ScanPhase
  manual : ScanPhase
  log : List Nat
deriving DecidableEq

/-- Interleaving semantics of the two entry points of scheduler.py, each
step one atomic SQLite operation or send, delivery always succeeding.
scheduler.py shares no lock, flag or other guard between
_check_and_send_reminders and run_reminder_scan_now (its only
synchronization object is the stop Event), so the start steps carry no
precondition on the other phase: either side may fetch its overdue list
while the other is mid-pass. -/
inductive RStep (nowTs : Int) (cnow : String) : RaceState → RaceState → Prop
  | tickStart (st : RaceState) :
      st.tick = .idle →
      RStep nowTs cnow st
        { st with tick := .running (get_overdue_tasks st.store nowTs) [] }
  | tickSkip (st : RaceState) (t : TaskRow) (rest : List TaskRow) (seen : List Nat) :
      st.tick = .running (t :: rest) seen → t.id ∈ seen →
      RStep nowTs cnow st { st with tick := .running rest seen }
  | tickSend (st : RaceState) (t : TaskRow) (rest : List TaskRow) (seen : List Nat) :
      st.tick = .running (t :: rest) seen → t.id ∉ seen →
      RStep nowTs cnow st
        { st with tick := .running rest (t.id :: seen),
                  store := (complete_task_update st.store t.id cnow).2,
                  log := st.log ++ [t.id] }
  | tickFinish (st : RaceState) (seen : List Nat) :
      st.tick = .running [] seen →
      RStep nowTs cnow st { st with tick := .finished }
  | manualStart (st : RaceState) :
      st.manual = .idle →
      RStep nowTs cnow st
        { st with manual := .running (get_overdue_tasks st.store nowTs) [] }
  | manualSkip (st : RaceState) (t : TaskRow) (rest : List TaskRow) (seen : List Nat) :
      st.manual = .running (t :: rest) seen → t.id ∈ seen →
      RStep nowTs cnow st { st with manual := .running rest seen }
  | manualSend (st : RaceState) (t : TaskRow) (rest : List TaskRow) (seen : List Nat) :
      st.manual = .running (t :: rest) seen → t.id ∉ seen →
      RStep nowTs cnow st
        { st with manual := .running rest (t.id :: seen),
                  store := (complete_task_update st.store t.id cnow).2,
                  log := st.log ++ [t.id] }
  | manualFinish (st : RaceState) (seen : List Nat) :
      st.manual = .running [] seen →
      RStep nowTs cnow st { st with manual := .finished }

/-- A scan pass is in progress for this phase. -/
def scanning : ScanPhase → Prop
  | .running _ _ => True
  | _ => False

/-- The claimed mutual exclusion: at most one scan pass in progress. -/
def oneScanAtATime (st : RaceState) : Prop := ¬ (scanning st.tick ∧ scanning st.manual)

/-- Concrete pending task, one minute overdue at reference instant 100. -/
def raceTask : TaskRow :=
  { id := 1, text := "call mom", due_date := some "2024-01-15T23:40:00+00:00",
    due_ts := some 40, completed := false, priority := "medium",
    created_at := "2024-01-15 23:00:00", completed_at := none }

/-- Both entry points idle over a store holding the one overdue task. -/
def raceInit : RaceState :=
  { store := [raceTask], tick := .idle, manual := .idle, log := [] }

/-- Strict comparison on optional due strings as the spec words order them
for list_pending: null due times sorted last.  Written from the spec, not
the code, to compare the two orders. -/
def opt_str_lt_spec : Option String → Option String → Prop
  | some _, none => True
  | some x, some y => x < y
  | none, _ => False

instance (a b : Option String) : Decidable (opt_str_lt_spec a b) :=
  match a, b with
  | some _, none => isTrue trivial
  | some x, some y => inferInstanceAs (Decidable (x < y))
  | none, none => isFalse (fun h => h)
  | none, some _ => isFalse (fun h => h)

/-- Pending-list order as the spec claims it: priority, then due ascending
with nulls last, then creation order. -/
def pending_le_spec (a b : TaskRow) : Prop :=
  prioKey a.priority < prioKey b.priority ∨
    (prioKey a.priority = prioKey b.priority ∧
      (opt_str_lt_spec a.due_date b.due_date ∨
        (a.due_date = b.due_date ∧ a.created_at ≤ b.created_at)))

instance (a b : TaskRow) : Decidable (pending_le_spec a b) := by
  unfold pending_le_spec
  infer_instance

/-- Two pending rows of equal priority, the first with a due date, the
second without. -/
def pendWithDue : TaskRow :=
  { id := 1, text := "a", due_date := some "2024-01-01T10:00:00+00:00",
    due_ts := some 0, completed := false, priority := "medium",
    created_at := "2024-01-01 00:00:00", completed_at := none }

/-- Companion row of pendWithDue carrying a NULL due date. -/
def pendNullDue : TaskRow :=
  { id := 2, text := "b", due_date := none, due_ts := none,
    completed := false, priority := "medium",
    created_at := "2024-01-01 00:00:01", completed_at := none }

/-- Rows produced by the conditional completion UPDATE that carry the
targeted id are completed. -/
lemma completed_of_mem_update (s : List TaskRow) (i : Nat) (n : String) :
    ∀ u ∈ (complete_task_update s i n).2, u.id = i → u.completed = true := by
  intro u hu hid
  simp only [complete_task_update, List.mem_map] at hu
  obtain ⟨v, _, he⟩ := hu
  by_cases h : v.id = i ∧ v.completed = false
  · rw [if_pos h] at he
    rw [← he]
    rfl
  · rw [if_neg h] at he
    subst he
    cases hb : v.completed
    · exact absurd ⟨hid, hb⟩ h
    · rfl

/-- The completion UPDATE never changes the id of a row. -/
lemma update_row_id (n : String) (i : Nat) (v : TaskRow) :
    (if v.id = i ∧ v.completed = false then markDone n v else v).id = v.id := by
  split <;> rfl

/-- When every row with the targeted id is already completed, the UPDATE
leaves the table unchanged. -/
lemma update_eq_self_of_completed (s : List TaskRow) (i : Nat) (n : String)
    (h : ∀ u ∈ s, u.id = i → u.completed = true) :
    (complete_task_update s i n).2 = s := by
  simp only [complete_task_update]
  conv_rhs => rw [← List.map_id s]
  apply List.map_congr_left
  intro u hu
  rw [if_neg]
  · rfl
  · rintro ⟨h1, h2⟩
    rw [h u hu h1] at h2
    exact absurd h2 (by simp)

/-- When every row with the targeted id is already completed, the UPDATE
reports rowcount zero. -/
lemma update_fst_false_of_completed (s : List TaskRow) (i : Nat) (n : String)
    (h : ∀ u ∈ s, u.id = i → u.completed = true) :
    (complete_task_update s i n).1 = false := by
  simp only [complete_task_update]
  rw [List.any_eq_false]
  intro u hu
  simp only [Bool.and_eq_true, beq_iff_eq, Bool.not_eq_true', not_and]
  intro hid
  rw [h u hu hid]
  simp

/-- C1: complete(id) succeeds exactly when a pending row with that id
exists; it reduces to the conditional UPDATE matched on id and completed
both; after a success, a second complete on the same id returns false and
leaves the table unchanged; an id with no row returns false (a no-op is not
an error). -/
theorem complete_task_conditional (s : List TaskRow) (i : Nat) (n1 n2 : String) :
    ((complete_task_update s i n1).1 = true ↔
        ∃ t ∈ s, t.id = i ∧ t.completed = false) ∧
    complete_task (.ok s) i n1 = (complete_task_update s i n1).1 ∧
    ((complete_task_update s i n1).1 = true →
      (complete_task_update (complete_task_update s i n1).2 i n2).1 = false ∧
      (complete_task_update (complete_task_update s i n1).2 i n2).2 =
        (complete_task_update s i n1).2) ∧
    ((∀ t ∈ s, t.id ≠ i) → (complete_task_update s i n1).1 = false) := by
  refine ⟨?_, rfl, ?_, ?_⟩
  · simp only [complete_task_update, List.any_eq_true, Bool.and_eq_true, beq_iff_eq,
      Bool.not_eq_true']
  · intro _
    exact ⟨update_fst_false_of_completed _ _ _ (completed_of_mem_update s i n1),
      update_eq_self_of_completed _ _ _ (completed_of_mem_update s i n1)⟩
  · intro h
    simp only [complete_task_update]
    rw [List.any_eq_false]
    intro u hu
    simp only [Bool.and_eq_true, beq_iff_eq, Bool.not_eq_true', not_and]
    intro hid
    exact absurd hid (h u hu)

/-- Witness for C1 on a one-row store: the first complete succeeds, the
second returns false and changes nothing. -/
theorem complete_task_conditional_witness :
    ((complete_task_update [raceTask] 1 "n1").1 = true ↔
        ∃ t ∈ [raceTask], t.id = 1 ∧ t.completed = false) ∧
    ((complete_task_update (complete_task_update [raceTask] 1 "n1").2 1 "n2").1 = false ∧
      (complete_task_update (complete_task_update [raceTask] 1 "n1").2 1 "n2").2 =
        (complete_task_update [raceTask] 1 "n1").2) ∧
    (∀ t ∈ [raceTask], t.id ≠ 2) ∧
    (complete_task_update [raceTask] 2 "n1").1 = false := by
  refine ⟨(complete_task_conditional [raceTask] 1 "n1" "n2").1,
    (complete_task_conditional [raceTask] 1 "n1" "n2").2.2.1 (by decide), ?_,
    (complete_task_conditional [raceTask] 2 "n1" "n2").2.2.2 (by decide)⟩
  decide

/-- The WHERE clause of get_overdue_tasks, spelled out. -/
lemma overdueP_iff (now : Int) (t : TaskRow) :
    overdueP now t = true ↔
      t.completed = false ∧ ∃ v, t.due_ts = some v ∧ v < now := by
  unfold overdueP
  cases h : t.due_ts <;>
    simp [h, Bool.and_eq_true, Bool.not_eq_true', decide_eq_true_iff]

/-- Membership in the overdue query result. -/
lemma mem_get_overdue (s : List TaskRow) (now : Int) (t : TaskRow) :
    t ∈ get_overdue_tasks s now ↔ t ∈ s ∧ overdueP now t = true := by
  unfold get_overdue_tasks
  rw [(List.perm_insertionSort due_ts_le _).mem_iff, List.mem_filter]

/-- C2: the overdue query returns exactly the pending rows with a non-null
due timestamp strictly below now — as a permutation of the table filter, so
each matching row exactly once — sorted by due timestamp ascending; with
unique ids in the table, the ids of the result are unique. -/
theorem get_overdue_tasks_spec (s : List TaskRow) (now : Int) :
    (get_overdue_tasks s now).Perm (s.filter (overdueP now)) ∧
    (∀ t, t ∈ get_overdue_tasks s now ↔
        t ∈ s ∧ t.completed = false ∧ ∃ v, t.due_ts = some v ∧ v < now) ∧
    (get_overdue_tasks s now).Pairwise due_ts_le ∧
    ((s.map TaskRow.id).Nodup → ((get_overdue_tasks s now).map TaskRow.id).Nodup) := by
  refine ⟨List.perm_insertionSort due_ts_le _, ?_, ?_, ?_⟩
  · intro t
    rw [mem_get_overdue, overdueP_iff]
  · exact List.sorted_insertionSort due_ts_le _
  · intro h
    have hp : ((get_overdue_tasks s now).map TaskRow.id).Perm
        ((s.filter (overdueP now)).map TaskRow.id) :=
      (List.perm_insertionSort due_ts_le _).map TaskRow.id
    rw [hp.nodup_iff]
    exact h.sublist ((s.filter_sublist).map TaskRow.id)

/-- Witness for C2 on a three-row store (one overdue, one completed, one
without a due timestamp): unique input ids give unique output ids, and the
output is due-sorted. -/
theorem get_overdue_tasks_spec_witness :
    (([raceTask, { raceTask with id := 2, completed := true },
        { raceTask with id := 3, due_ts := none }].map TaskRow.id).Nodup) ∧
    ((get_overdue_tasks [raceTask, { raceTask with id := 2, completed := true },
        { raceTask with id := 3, due_ts := none }] 100).map TaskRow.id).Nodup ∧
    (get_overdue_tasks [raceTask, { raceTask with id := 2, completed := true },
        { raceTask with id := 3, due_ts := none }] 100).Pairwise due_ts_le :=
  ⟨by decide,
   (get_overdue_tasks_spec [raceTask, { raceTask with id := 2, completed := true },
      { raceTask with id := 3, due_ts := none }] 100).2.2.2 (by decide),
   (get_overdue_tasks_spec [raceTask, { raceTask with id := 2, completed := true },
      { raceTask with id := 3, due_ts := none }] 100).2.2.1⟩

/-- Ids surviving the seen-set deduplication are distinct and outside the
initial seen set. -/
lemma dedupIds_nodup_notin : ∀ (due : List TaskRow) (seen : List Nat),
    (dedupIds due seen).Nodup ∧ ∀ i ∈ dedupIds due seen, i ∉ seen := by
  intro due
  induction due with
  | nil => intro seen; simp [dedupIds]
  | cons t rest ih =>
    intro seen
    by_cases h : t.id ∈ seen
    · simp only [dedupIds, if_pos h]
      exact ih seen
    · simp only [dedupIds, if_neg h]
      obtain ⟨hnd, hmem⟩ := ih (t.id :: seen)
      refine ⟨List.nodup_cons.mpr ⟨fun hc => (hmem _ hc) (List.mem_cons_self _ _), hnd⟩, ?_⟩
      intro i hi
      rcases List.mem_cons.mp hi with rfl | hi2
      · exact h
      · exact fun hs => (hmem i hi2) (List.mem_cons_of_mem _ hs)

/-- Deduplicated ids all come from the fetched list. -/
lemma dedupIds_subset : ∀ (due : List TaskRow) (seen : List Nat) (i : Nat),
    i ∈ dedupIds due seen → i ∈ due.map TaskRow.id := by
  intro due
  induction due with
  | nil => intro seen i hi; simp [dedupIds] at hi
  | cons t rest ih =>
    intro seen i hi
    by_cases h : t.id ∈ seen
    · rw [dedupIds, if_pos h] at hi
      exact List.mem_cons_of_mem _ (ih seen i hi)
    · rw [dedupIds, if_neg h] at hi
      rcases List.mem_cons.mp hi with rfl | hi2
      · exact List.mem_cons_self _ _
      · exact List.mem_cons_of_mem _ (ih (t.id :: seen) i hi2)

/-- Every fetched task id outside the seen set survives deduplication. -/
lemma mem_dedupIds : ∀ (due : List TaskRow) (seen : List Nat) (t : TaskRow),
    t ∈ due → t.id ∉ seen → t.id ∈ dedupIds due seen := by
  intro due
  induction due with
  | nil => intro seen t ht; simp at ht
  | cons u rest ih =>
    intro seen t ht hs
    rcases List.mem_cons.mp ht with rfl | ht2
    · rw [dedupIds, if_neg hs]
      exact List.mem_cons_self _ _
    · by_cases h : u.id ∈ seen
      · rw [dedupIds, if_pos h]
        exact ih seen t ht2 hs
      · rw [dedupIds, if_neg h]
        by_cases he : t.id = u.id
        · exact he ▸ List.mem_cons_self _ _
        · exact List.mem_cons_of_mem _
            (ih (u.id :: seen) t ht2 (by simp [he, hs]))

/-- Closed form of the per-task loop: the attempted sends are the
deduplicated ids, sent_count grows by the number of successful deduplicated
ids, and the final table is the fold of the conditional completion over the
successful ids. -/
lemma scanGo_eq (send : Nat → Outcome) (cnow : String) :
    ∀ (due s : List TaskRow) (seen sends : List Nat) (sent : Nat),
    scanGo send cnow due s seen sends sent =
      ⟨sends ++ dedupIds due seen, sent + (succIds send due seen).length,
        applyCompl cnow s (succIds send due seen)⟩ := by
  intro due
  induction due with
  | nil =>
    intro s seen sends sent
    simp [scanGo, dedupIds, succIds, applyCompl]
  | cons t rest ih =>
    intro s seen sends sent
    by_cases h : t.id ∈ seen
    · simp only [scanGo, if_pos h, succIds, dedupIds]
      exact ih s seen sends sent
    · cases ho : send t.id with
      | success =>
        simp only [scanGo, if_neg h, ho, succIds, dedupIds]
        rw [ih, List.filter_cons, if_pos (by simp [ho])]
        simp only [succIds, applyCompl, ScanResult.mk.injEq, List.length_cons,
          List.append_assoc, List.singleton_append]
        exact ⟨trivial, by omega, trivial⟩
      | failed =>
        simp only [scanGo, if_neg h, ho, succIds, dedupIds]
        rw [ih, List.filter_cons, if_neg (by simp [ho])]
        simp only [succIds, ScanResult.mk.injEq, List.append_assoc,
          List.singleton_append]
      | raised =>
        simp only [scanGo, if_neg h, ho, succIds, dedupIds]
        rw [ih, List.filter_cons, if_neg (by simp [ho])]
        simp only [succIds, ScanResult.mk.injEq, List.append_assoc,
          List.singleton_append]

/-- Folding the conditional completion over distinct ids is one pointwise
update: a row becomes completed exactly when its id is among the ids and it
was pending. -/
lemma applyCompl_eq_map (cnow : String) :
    ∀ (ids : List Nat) (s : List TaskRow), ids.Nodup →
    applyCompl cnow s ids =
      s.map (fun u => if u.id ∈ ids ∧ u.completed = false then markDone cnow u else u) := by
  intro ids
  induction ids with
  | nil =>
    intro s _
    simp [applyCompl]
  | cons i l ih =>
    intro s hnd
    rw [List.nodup_cons] at hnd
    obtain ⟨hil, hl⟩ := hnd
    simp only [applyCompl]
    rw [ih _ hl]
    simp only [complete_task_update]
    rw [List.map_map]
    apply List.map_congr_left
    intro u _
    simp only [Function.comp]
    by_cases h1 : u.id = i ∧ u.completed = false
    · rw [if_pos h1, if_neg, if_pos ⟨h1.1 ▸ List.mem_cons_self i l, h1.2⟩]
      rintro ⟨_, hc⟩
      exact absurd hc (by simp [markDone])
    · rw [if_neg h1]
      by_cases h2 : u.id ∈ l ∧ u.completed = false
      · rw [if_pos h2, if_pos ⟨List.mem_cons_of_mem _ h2.1, h2.2⟩]
      · rw [if_neg h2, if_neg]
        rintro ⟨hm, hc⟩
        rcases List.mem_cons.mp hm with he | hm2
        · exact h1 ⟨he, hc⟩
        · exact h2 ⟨hm2, hc⟩

/-- C3: within one scan pass over the fetched list, every task surviving
the per-pass id deduplication is attempted regardless of what happened to
the tasks before it (the attempted sends are exactly the deduplicated ids,
and sent_count counts exactly the successes); a task whose delivery
succeeds ends completed; a task whose delivery fails or raises leaves its
rows exactly as they were. -/
theorem scan_pass_per_task_isolation (send : Nat → Outcome) (cnow : String)
    (due s : List TaskRow) :
    (scanGo send cnow due s [] [] 0).sends = dedupIds due [] ∧
    (scanGo send cnow due s [] [] 0).sent = (succIds send due []).length ∧
    (∀ t ∈ due, send t.id = Outcome.success →
      ∀ u ∈ (scanGo send cnow due s [] [] 0).store, u.id = t.id →
        u.completed = true) ∧
    (∀ t ∈ due, send t.id ≠ Outcome.success →
      rowsWith (scanGo send cnow due s [] [] 0).store t.id = rowsWith s t.id) := by
  have hq := scanGo_eq send cnow due s [] [] 0
  have hnd : (succIds send due []).Nodup :=
    ((dedupIds_nodup_notin due []).1).filter _
  have hstore : (scanGo send cnow due s [] [] 0).store =
      s.map (fun u => if u.id ∈ succIds send due [] ∧ u.completed = false
        then markDone cnow u else u) := by
    rw [hq]
    exact applyCompl_eq_map cnow _ s hnd
  refine ⟨by rw [hq]; simp, by rw [hq]; simp, ?_, ?_⟩
  · intro t ht hsucc u hu hid
    have htid : t.id ∈ succIds send due [] :=
      List.mem_filter.mpr ⟨mem_dedupIds due [] t ht (by simp), by simp [hsucc]⟩
    rw [hstore, List.mem_map] at hu
    obtain ⟨v, _, he⟩ := hu
    by_cases hc : v.id ∈ succIds send due [] ∧ v.completed = false
    · rw [if_pos hc] at he
      rw [← he]
      rfl
    · rw [if_neg hc] at he
      subst he
      cases hb : v.completed
      · exact absurd ⟨hid ▸ htid, hb⟩ hc
      · rfl
  · intro t ht hne
    have htid : t.id ∉ succIds send due [] := by
      intro hmem
      exact hne (by simpa using (List.mem_filter.mp hmem).2)
    rw [hstore]
    simp only [rowsWith]
    rw [List.filter_map, List.filter_congr (q := fun u => u.id == t.id) ?_]
    · conv_rhs => rw [← List.map_id (List.filter (fun u => u.id == t.id) s)]
      apply List.map_congr_left
      intro a ha
      have hat : a.id = t.id := by simpa using (List.mem_filter.mp ha).2
      rw [if_neg]
      · rfl
      · rintro ⟨hmem, _⟩
        exact htid (hat ▸ hmem)
    · intro a _
      simp only [Function.comp]
      split <;> rfl

/-- Witness for C3: two overdue tasks, the first delivery succeeds, the
second fails; both are attempted, one is counted, the first ends completed,
the rows of the second are unchanged. -/
theorem scan_pass_per_task_isolation_witness :
    (scanGo (fun i => if i = 1 then Outcome.success else Outcome.failed) "c"
      [raceTask, { raceTask with id := 2 }]
      [raceTask, { raceTask with id := 2 }] [] [] 0).sends = [1, 2] ∧
    (scanGo (fun i => if i = 1 then Outcome.success else Outcome.failed) "c"
      [raceTask, { raceTask with id := 2 }]
      [raceTask, { raceTask with id := 2 }] [] [] 0).sent = 1 ∧
    (∀ u ∈ (scanGo (fun i => if i = 1 then Outcome.success else Outcome.failed) "c"
      [raceTask, { raceTask with id := 2 }]
      [raceTask, { raceTask with id := 2 }] [] [] 0).store,
        u.id = raceTask.id → u.completed = true) ∧
    rowsWith (scanGo (fun i => if i = 1 then Outcome.success else Outcome.failed) "c"
      [raceTask, { raceTask with id := 2 }]
      [raceTask, { raceTask with id := 2 }] [] [] 0).store 2 =
      rowsWith [raceTask, { raceTask with id := 2 }] 2 :=
  ⟨(scan_pass_per_task_isolation (fun i => if i = 1 then Outcome.success else Outcome.failed)
      "c" [raceTask, { raceTask with id := 2 }]
      [raceTask, { raceTask with id := 2 }]).1.trans (by decide),
   (scan_pass_per_task_isolation (fun i => if i = 1 then Outcome.success else Outcome.failed)
      "c" [raceTask, { raceTask with id := 2 }]
      [raceTask, { raceTask with id := 2 }]).2.1.trans (by decide),
   (scan_pass_per_task_isolation (fun i => if i = 1 then Outcome.success else Outcome.failed)
      "c" [raceTask, { raceTask with id := 2 }]
      [raceTask, { raceTask with id := 2 }]).2.2.1 raceTask (by decide) (by decide),
   (scan_pass_per_task_isolation (fun i => if i = 1 then Outcome.success else Outcome.failed)
      "c" [raceTask, { raceTask with id := 2 }]
      [raceTask, { raceTask with id := 2 }]).2.2.2 { raceTask with id := 2 }
      (by decide) (by decide)⟩

/-- C4: the claimed shared non-reentrancy guard does not exist in
scheduler.py, so from a store holding one overdue task the interleaving
semantics reaches a state in which the scheduled tick and the manual
trigger are both mid-scan and the send log shows the same task delivered
twice: the mutual-exclusion property oneScanAtATime is violated on a
reachable state. -/
theorem scheduler_scan_race_reachable :
    ∃ st : RaceState, Relation.ReflTransGen (RStep 100 "c") raceInit st ∧
      ¬ oneScanAtATime st ∧ st.log = [1, 1] := by
  refine ⟨{ store := [markDone "c" raceTask], tick := .running [] [1],
            manual := .running [] [1], log := [1, 1] }, ?_, ?_, rfl⟩
  · exact Relation.ReflTransGen.head (RStep.tickStart raceInit rfl)
      (Relation.ReflTransGen.head (RStep.manualStart _ rfl)
        (Relation.ReflTransGen.head (RStep.tickSend _ raceTask [] [] rfl (by simp))
          (Relation.ReflTransGen.single
            (RStep.manualSend _ raceTask [] [] rfl (by simp)))))
  · exact fun h => h ⟨trivial, trivial⟩

/-- C5: whatever tier produced the parse, the returned value is UTC (offset
zero) and truncated to whole seconds (microseconds zeroed); a naive parse
is first localized to the configured timezone offset and only then
converted, so its instant is the wall reading minus the timezone offset; an
aware parse keeps its own instant; every successful resolution goes through
this finalization. -/
theorem parse_date_nlp_utc_truncated (tz : Int) :
    (∀ p : ParsedDT, (finalizeParsed tz p).offset_s = 0) ∧
    (∀ p : ParsedDT, (finalizeParsed tz p).instant_us.emod 1000000 = 0) ∧
    (∀ w : Int, finalizeParsed tz (.naive w) =
        ⟨(w - tz * 1000000) - (w - tz * 1000000).emod 1000000, 0⟩) ∧
    (∀ d : AwareDT, finalizeParsed tz (.aware d) =
        ⟨d.instant_us - d.instant_us.emod 1000000, 0⟩) ∧
    (∀ lib text d, parse_date_nlp lib tz text = some d →
        ∃ p, d = finalizeParsed tz p) := by
  have h0 : ∀ a : Int, (a - a.emod 1000000).emod 1000000 = 0 := by
    intro a
    show (a - a % 1000000) % 1000000 = 0
    rw [Int.sub_emod, Int.emod_emod_of_dvd a (dvd_refl 1000000)]
    simp
  refine ⟨fun p => by cases p <;> rfl, fun p => ?_, fun w => ?_, fun d => ?_, ?_⟩
  · cases p with
    | naive w =>
      show ((w - tz * 1000000) -
        ((w - tz * 1000000) + 0 * 1000000).emod 1000000).emod 1000000 = 0
      simp only [zero_mul, add_zero]
      exact h0 _
    | aware d =>
      show (d.instant_us - (d.instant_us + 0 * 1000000).emod 1000000).emod 1000000 = 0
      simp only [zero_mul, add_zero]
      exact h0 _
  · simp [finalizeParsed, localizeNaive, toUTC, truncMicro]
  · simp [finalizeParsed, localizeNaive, toUTC, truncMicro]
  · intro lib text d h
    unfold parse_date_nlp at h
    cases hl : lib text with
    | error e =>
      rw [hl] at h
      simp at h
    | ok o =>
      cases o with
      | some p =>
        rw [hl] at h
        simp at h
        exact ⟨p, h.symm⟩
      | none =>
        rw [hl] at h
        cases hf : fallbackSearch lib (lowerChars text.toList) time_patterns with
        | error e =>
          rw [hf] at h
          simp at h
        | ok o2 =>
          cases o2 with
          | none =>
            rw [hf] at h
            simp at h
          | some p =>
            rw [hf] at h
            simp at h
            exact ⟨p, h.symm⟩

/-- Witness for C5 in timezone UTC-6 (offset -21600 seconds): a dateparser
model returning a naive value resolves through the finalization, is UTC and
is whole-second. -/
theorem parse_date_nlp_utc_truncated_witness :
    (∃ p, finalizeParsed (-21600) (ParsedDT.naive 5) = finalizeParsed (-21600) p) ∧
    (finalizeParsed (-21600) (ParsedDT.naive 5)).offset_s = 0 ∧
    (finalizeParsed (-21600) (ParsedDT.naive 5)).instant_us.emod 1000000 = 0 :=
  ⟨(parse_date_nlp_utc_truncated (-21600)).2.2.2.2
      (fun _ => .ok (some (.naive 5))) "x" _ rfl,
   (parse_date_nlp_utc_truncated (-21600)).1 (ParsedDT.naive 5),
   (parse_date_nlp_utc_truncated (-21600)).2.1 (ParsedDT.naive 5)⟩

/-- Computation of parse_date_nlp over an exception-free dateparser. -/
lemma parse_date_nlp_pure (plib : String → Option ParsedDT) (tz : Int) (text : String) :
    parse_date_nlp (libOfPure plib) tz text =
      match plib text with
      | some d => some (finalizeParsed tz d)
      | none =>
        match fallbackSearch (libOfPure plib) (lowerChars text.toList) time_patterns with
        | .error _ => none
        | .ok none => none
        | .ok (some p) => some (finalizeParsed tz p) := by
  unfold parse_date_nlp libOfPure
  cases plib text <;> rfl

/-- When no pattern of the list occurs in the text, the fallback loop
leaves parsed as None. -/
lemma fallbackSearch_all_none (lib : String → Except Unit (Option ParsedDT))
    (low : List Char) :
    ∀ L : List TimePattern, (∀ p ∈ L, patternPhrase p low = none) →
      fallbackSearch lib low L = .ok none := by
  intro L
  induction L with
  | nil => intro _; rfl
  | cons p rest ih =>
    intro h
    have hp : patternPhrase p low = none := h p (List.mem_cons_self _ _)
    simp only [fallbackSearch, hp]
    exact ih (fun q hq => h q (List.mem_cons_of_mem _ hq))

/-- The fallback loop stops at the first pattern of the list that occurs:
its result is the dateparser call on that pattern phrase. -/
lemma fallbackSearch_first (lib : String → Except Unit (Option ParsedDT))
    (low : List Char) :
    ∀ (L : List TimePattern) (k : Nat) (hk : k < L.length) (phrase : String),
      patternPhrase (L.get ⟨k, hk⟩) low = some phrase →
      (∀ (j : Nat) (hj : j < k), patternPhrase (L.get ⟨j, Nat.lt_trans hj hk⟩) low = none) →
      fallbackSearch lib low L = lib phrase := by
  intro L
  induction L with
  | nil =>
    intro k hk
    exact absurd hk (by simp)
  | cons p rest ih =>
    intro k hk phrase hmatch hbefore
    cases k with
    | zero =>
      simp only [List.get] at hmatch
      simp only [fallbackSearch, hmatch]
    | succ k0 =>
      have h0 : patternPhrase p low = none := hbefore 0 (Nat.succ_pos k0)
      simp only [fallbackSearch, h0]
      exact ih k0 (Nat.lt_of_succ_lt_succ hk) phrase hmatch
        (fun j hj => hbefore (j + 1) (Nat.succ_lt_succ hj))

/-- C6: the resolver is two-tier.  If the whole text parses, that result is
used and the pattern list is never consulted.  Only when whole-text parsing
returns nothing does the fallback walk the fixed time_patterns list in
order: the first pattern that occurs decides the outcome (its phrase is
parsed in isolation, even if that parse then finds nothing), and when no
pattern occurs the result is no-date-found. -/
theorem parse_date_nlp_two_tier (plib : String → Option ParsedDT) (tz : Int)
    (text : String) :
    (∀ d, plib text = some d →
        parse_date_nlp (libOfPure plib) tz text = some (finalizeParsed tz d)) ∧
    (plib text = none →
      ((∀ p ∈ time_patterns, patternPhrase p (lowerChars text.toList) = none) →
          parse_date_nlp (libOfPure plib) tz text = none) ∧
      (∀ (k : Nat) (hk : k < time_patterns.length) (phrase : String),
          patternPhrase (time_patterns.get ⟨k, hk⟩) (lowerChars text.toList) = some phrase →
          (∀ (j : Nat) (hj : j < k),
            patternPhrase (time_patterns.get ⟨j, Nat.lt_trans hj hk⟩)
              (lowerChars text.toList) = none) →
          parse_date_nlp (libOfPure plib) tz text =
            (plib phrase).map (finalizeParsed tz))) := by
  constructor
  · intro d hd
    rw [parse_date_nlp_pure, hd]
  · intro hnone
    constructor
    · intro hall
      rw [parse_date_nlp_pure, hnone,
        fallbackSearch_all_none (libOfPure plib) (lowerChars text.toList) time_patterns hall]
    · intro k hk phrase hm hb
      rw [parse_date_nlp_pure, hnone,
        fallbackSearch_first (libOfPure plib) (lowerChars text.toList) time_patterns
          k hk phrase hm hb]
      unfold libOfPure
      cases plib phrase <;> rfl

/-- Witness for C6: the whole text does not parse, the in-N-minutes pattern
does not occur, the in-N-hours pattern matches the fragment in 2 hours, and
the resolver returns the parse of that fragment alone. -/
theorem parse_date_nlp_two_tier_witness :
    parse_date_nlp
      (libOfPure (fun s => if s = "in 2 hours" then some (ParsedDT.naive 0) else none))
      0 "call in 2 hours" = some (finalizeParsed 0 (ParsedDT.naive 0)) := by
  have h2 := ((parse_date_nlp_two_tier
      (fun s => if s = "in 2 hours" then some (ParsedDT.naive 0) else none)
      0 "call in 2 hours").2 (by decide)).2 1 (by decide) "in 2 hours"
      (by decide) ?_
  · rw [h2]
    rfl
  · intro j hj
    have hj0 : j = 0 := by omega
    subst hj0
    exact rfl

/-- C7: a date-resolution failure is never a hard error.  A dateparser
raise during the whole-text attempt, a raise during the fallback walk, and
a fallback that finds nothing all yield the no-date-found result, and with
that result the task creation path still inserts the task, with a null due
string and a null due timestamp. -/
theorem parse_failure_degrades_to_null_due (lib : String → Except Unit (Option ParsedDT))
    (tz : Int) (isoParse : String → Option Int) (fmt : AwareDT → String)
    (s : List TaskRow) (task_text user_message priority created : String) :
    ((∃ e, lib user_message = .error e) →
        parse_date_nlp lib tz user_message = none) ∧
    ((lib user_message = .ok none ∧
        (∃ e, fallbackSearch lib (lowerChars user_message.toList) time_patterns =
          .error e)) →
        parse_date_nlp lib tz user_message = none) ∧
    ((lib user_message = .ok none ∧
        fallbackSearch lib (lowerChars user_message.toList) time_patterns = .ok none) →
        parse_date_nlp lib tz user_message = none) ∧
    (parse_date_nlp lib tz user_message = none →
      handle_task_creation lib tz isoParse fmt s task_text user_message priority created =
        (s ++ [{ id := nextId s, text := task_text, due_date := none, due_ts := none,
                 completed := false, priority := priority, created_at := created,
                 completed_at := none }], nextId s)) := by
  refine ⟨?_, ?_, ?_, ?_⟩
  · rintro ⟨e, he⟩
    unfold parse_date_nlp
    rw [he]
  · rintro ⟨h1, e, h2⟩
    unfold parse_date_nlp
    rw [h1, h2]
  · rintro ⟨h1, h2⟩
    unfold parse_date_nlp
    rw [h1, h2]
  · intro h
    unfold handle_task_creation
    rw [h]
    rfl

/-- Witness for C7: a dateparser that always raises still lets the request
create a task with no due time. -/
theorem parse_failure_degrades_to_null_due_witness :
    parse_date_nlp (fun _ => Except.error ()) 0 "m" = none ∧
    handle_task_creation (fun _ => Except.error ()) 0 (fun _ => none) (fun _ => "x")
      [] "t" "m" "medium" "c" =
      ([{ id := 1, text := "t", due_date := none, due_ts := none, completed := false,
          priority := "medium", created_at := "c", completed_at := none }], 1) := by
  have h1 := (parse_failure_degrades_to_null_due (fun _ => Except.error ()) 0
    (fun _ => none) (fun _ => "x") [] "t" "m" "medium" "c").1 ⟨(), rfl⟩
  refine ⟨h1, ?_⟩
  exact ((parse_failure_degrades_to_null_due (fun _ => Except.error ()) 0
    (fun _ => none) (fun _ => "x") [] "t" "m" "medium" "c").2.2.2 h1).trans (by decide)

/-- Counterexample to C8: on id 7 a storage error and a store that simply
lacks the id produce the very same results (None from get_task, False from
complete_task) — the caller cannot tell store-unavailable from
no-such-task. -/
theorem storage_error_indistinguishable :
    get_task (.error ()) 7 = get_task (.ok [raceTask]) 7 ∧
    complete_task (.error ()) 7 "c" = complete_task (.ok [raceTask]) 7 "c" ∧
    get_task (.error ()) 7 = none ∧
    complete_task (.error ()) 7 "c" = false := by
  decide

/-- C8 as amended: a storage error in get_task or complete_task is caught
and collapsed into exactly the not-found / no-op result (None and False),
the same values a missing id produces. -/
theorem storage_error_collapsed (i : Nat) (s : List TaskRow) (n : String) :
    get_task (.error ()) i = none ∧
    complete_task (.error ()) i n = false ∧
    ((∀ t ∈ s, t.id ≠ i) →
      get_task (.ok s) i = none ∧ complete_task (.ok s) i n = false) := by
  refine ⟨rfl, rfl, ?_⟩
  intro h
  constructor
  · simp only [get_task]
    rw [List.find?_eq_none]
    intro t ht
    simpa using h t ht
  · simp only [complete_task, complete_task_update]
    rw [List.any_eq_false]
    intro u hu
    simp only [Bool.and_eq_true, beq_iff_eq, Bool.not_eq_true', not_and]
    intro hid
    exact absurd hid (h u hu)

/-- Witness for C8 as amended, at id 7 over a one-row store. -/
theorem storage_error_collapsed_witness :
    get_task (.error ()) 7 = none ∧ complete_task (.error ()) 7 "c" = false ∧
    get_task (.ok [raceTask]) 7 = none ∧
    complete_task (.ok [raceTask]) 7 "c" = false :=
  ⟨(storage_error_collapsed 7 [raceTask] "c").1,
   (storage_error_collapsed 7 [raceTask] "c").2.1,
   ((storage_error_collapsed 7 [raceTask] "c").2.2 (by decide)).1,
   ((storage_error_collapsed 7 [raceTask] "c").2.2 (by decide)).2⟩

/-- Counterexample to C9: two pending rows of equal priority, one with a
due date and one with NULL; SQLite ASC puts the NULL row first, so the
result is not ordered by the claimed nulls-last relation. -/
theorem get_pending_nulls_first_counterexample :
    (get_pending_tasks [pendWithDue, pendNullDue]).map TaskRow.id = [2, 1] ∧
    ¬ (get_pending_tasks [pendWithDue, pendNullDue]).Pairwise pending_le_spec := by
  constructor
  · decide
  · decide

/-- C9 as amended: the pending listing returns all and only the rows with
completed = 0, ordered by priority, then due date ascending with null due
dates sorted first (SQLite NULL ordering, on the stored display string),
then creation order. -/
theorem get_pending_tasks_order_spec (s : List TaskRow) :
    (get_pending_tasks s).Perm (s.filter (fun t => !t.completed)) ∧
    (∀ t, t ∈ get_pending_tasks s ↔ t ∈ s ∧ t.completed = false) ∧
    (get_pending_tasks s).Pairwise pending_le := by
  refine ⟨List.perm_insertionSort pending_le _, ?_,
    List.sorted_insertionSort pending_le _⟩
  intro t
  unfold get_pending_tasks
  rw [(List.perm_insertionSort pending_le _).mem_iff, List.mem_filter]
  simp

/-- Largest element bound for the AUTOINCREMENT fold. -/
lemma mem_le_foldr_max : ∀ (l : List Nat) (x : Nat), x ∈ l → x ≤ l.foldr max 0 := by
  intro l
  induction l with
  | nil => intro x hx; simp at hx
  | cons a l ih =>
    intro x hx
    rcases List.mem_cons.mp hx with rfl | hx2
    · exact le_max_left _ _
    · exact le_trans (ih x hx2) (le_max_right _ _)

/-- C10: a task created with a due string that datetime.fromisoformat
cannot parse is stored with a non-null display due_date but a NULL due_ts;
such a task never appears in the overdue query at any reference instant,
and no scan pass ever hands its id to send_reminder. -/
theorem unparseable_due_never_overdue (isoParse : String → Option Int)
    (s : List TaskRow) (text due pri created : String) (h : isoParse due = none) :
    (∃ t ∈ (add_task isoParse s text (some due) pri created).1,
        t.id = (add_task isoParse s text (some due) pri created).2 ∧
        t.due_date = some due ∧ t.due_ts = none) ∧
    (∀ now : Int, (add_task isoParse s text (some due) pri created).2 ∉
        (get_overdue_tasks (add_task isoParse s text (some due) pri created).1 now).map
          TaskRow.id) ∧
    (∀ (now : Int) (send : Nat → Outcome) (cnow : String),
        (add_task isoParse s text (some due) pri created).2 ∉
          (scanGo send cnow
            (get_overdue_tasks (add_task isoParse s text (some due) pri created).1 now)
            (add_task isoParse s text (some due) pri created).1 [] [] 0).sends) := by
  have hmem2 : ∀ now : Int, (add_task isoParse s text (some due) pri created).2 ∉
      (get_overdue_tasks (add_task isoParse s text (some due) pri created).1 now).map
        TaskRow.id := by
    intro now hmem
    rw [List.mem_map] at hmem
    obtain ⟨t, ht, hid⟩ := hmem
    rw [mem_get_overdue] at ht
    obtain ⟨hts, hover⟩ := ht
    simp only [add_task] at hts hid
    rcases List.mem_append.mp hts with hin | hnew
    · have hle : t.id ≤ (s.map TaskRow.id).foldr max 0 :=
        mem_le_foldr_max _ _ (List.mem_map_of_mem TaskRow.id hin)
      rw [nextId] at hid
      omega
    · rw [List.mem_singleton] at hnew
      rw [overdueP_iff] at hover
      obtain ⟨_, v, hv, _⟩ := hover
      rw [hnew] at hv
      simp [h] at hv
  refine ⟨?_, hmem2, ?_⟩
  · refine ⟨_, List.mem_append_right _ (List.mem_singleton_self _), rfl, rfl, ?_⟩
    simp [h]
  · intro now send cnow hmem
    rw [scanGo_eq] at hmem
    simp only [List.nil_append] at hmem
    exact hmem2 now (dedupIds_subset _ _ _ hmem)

/-- Witness for C10: an unparseable due string over an empty store; the new
id never shows up in the overdue query at instant 0 nor among the sends of
a scan pass. -/
theorem unparseable_due_never_overdue_witness :
    (add_task (fun _ => none) [] "t" (some "garbage") "medium" "c").2 ∉
      (get_overdue_tasks (add_task (fun _ => none) [] "t" (some "garbage") "medium" "c").1
        0).map TaskRow.id ∧
    (add_task (fun _ => none) [] "t" (some "garbage") "medium" "c").2 ∉
      (scanGo (fun _ => Outcome.success) "c"
        (get_overdue_tasks
          (add_task (fun _ => none) [] "t" (some "garbage") "medium" "c").1 0)
        (add_task (fun _ => none) [] "t" (some "garbage") "medium" "c").1 [] [] 0).sends :=
  ⟨(unparseable_due_never_overdue (fun _ => none) [] "t" "garbage" "medium" "c" rfl).2.1 0,
   (unparseable_due_never_overdue (fun _ => none) [] "t" "garbage" "medium" "c" rfl).2.2
     0 (fun _ => Outcome.success) "c"⟩
